import Mathlib

/-!
Verification of the work-report generator (src/generate-work-report.js).

The script manipulates JavaScript `Date` values.  We model a JS time value as
an unbounded `Int` of milliseconds since the Unix epoch (UTC), and the local
time zone of the invoking process as a fixed offset `tz` in milliseconds
(local time = UTC time + tz; a fixed-offset zone, no DST transitions).
Calendar arithmetic follows ECMA-262 (Day, DayFromYear, InLeapYear,
MonthFromTime, DateFromTime, WeekDay, MakeDay, MakeFullYear): the proleptic
Gregorian calendar.  Strings are modelled as `List Char`.
-/

abbrev Str := List Char

/-! ## ECMA-262 calendar primitives -/

/-- Milliseconds per day (ECMA-262 msPerDay). -/
abbrev msPerDay : Int := 86400000

/-- ECMA-262 Day(t) = floor(t / msPerDay).  `Int` division is Euclidean,
which agrees with floor for the positive divisor. -/
def dayOf (t : Int) : Int := t / msPerDay

/-- ECMA-262 TimeWithinDay(t) = t modulo msPerDay (result in [0, msPerDay)). -/
def timeWithinDay (t : Int) : Int := t % msPerDay

/-- Gregorian leap-year predicate (ECMA-262 DaysInYear / InLeapYear). -/
def isLeap (y : Int) : Bool := decide ((y % 4 = 0 ∧ y % 100 ≠ 0) ∨ y % 400 = 0)

/-- ECMA-262 DayFromYear(y): day number of 1 January of year y. -/
def daysFromYear (y : Int) : Int :=
  365 * (y - 1970) + (y - 1969) / 4 - (y - 1901) / 100 + (y - 1601) / 400

/-- Number of leap days contributed by the leap flag. -/
def leapDays : Bool → Int
  | false => 0
  | true => 1

/-- Cumulative days before 0-based month `m` in a year (ECMA-262 month
boundaries used by MonthFromTime, with the leap-day correction). -/
def monthOffset (leap : Bool) (m : Int) : Int :=
  if m ≤ 0 then 0
  else if m = 1 then 31
  else if m = 2 then 59 + leapDays leap
  else if m = 3 then 90 + leapDays leap
  else if m = 4 then 120 + leapDays leap
  else if m = 5 then 151 + leapDays leap
  else if m = 6 then 181 + leapDays leap
  else if m = 7 then 212 + leapDays leap
  else if m = 8 then 243 + leapDays leap
  else if m = 9 then 273 + leapDays leap
  else if m = 10 then 304 + leapDays leap
  else 334 + leapDays leap

/-- First guess for the year containing a day number. -/
def yearGuess (z : Int) : Int := 1970 + 400 * z / 146097

/-- ECMA-262 YearFromTime at day granularity: the unique y with
DayFromYear(y) ≤ z < DayFromYear(y+1).  Computed by a floor guess that is
provably within one year, then corrected. -/
def yearFromDay (z : Int) : Int :=
  if z < daysFromYear (yearGuess z) then yearGuess z - 1
  else if daysFromYear (yearGuess z + 1) ≤ z then yearGuess z + 1
  else yearGuess z

/-- ECMA-262 MonthFromTime, on the day-within-year (0-based month). -/
def monthFromDayWithinYear (leap : Bool) (dwy : Int) : Int :=
  if dwy < 31 then 0
  else if dwy < 59 + leapDays leap then 1
  else if dwy < 90 + leapDays leap then 2
  else if dwy < 120 + leapDays leap then 3
  else if dwy < 151 + leapDays leap then 4
  else if dwy < 181 + leapDays leap then 5
  else if dwy < 212 + leapDays leap then 6
  else if dwy < 243 + leapDays leap then 7
  else if dwy < 273 + leapDays leap then 8
  else if dwy < 304 + leapDays leap then 9
  else if dwy < 334 + leapDays leap then 10
  else 11

/-- MonthFromTime of a day number (0-based month). -/
def monthOfDay (z : Int) : Int :=
  monthFromDayWithinYear (isLeap (yearFromDay z)) (z - daysFromYear (yearFromDay z))

/-- ECMA-262 DateFromTime of a day number (day of month, 1-based). -/
def dateOfDay (z : Int) : Int :=
  z - daysFromYear (yearFromDay z) - monthOffset (isLeap (yearFromDay z)) (monthOfDay z) + 1

/-- ECMA-262 MakeDay(year, month, date): month is 0-based and may overflow
into adjacent years; date may overflow into adjacent months. -/
def makeDay (y m d : Int) : Int :=
  daysFromYear (y + m / 12) + monthOffset (isLeap (y + m / 12)) (m % 12) + d - 1

/-- ECMA-262 MakeFullYear: the two-digit-year rule of the Date constructor
(years 0..99 denote 1900..1999). -/
def makeFullYear (y : Int) : Int := if 0 ≤ y ∧ y ≤ 99 then 1900 + y else y

/-! ## JS Date methods used by the script (local zone = UTC + tz) -/

/-- JS `date.getDay()`: ECMA-262 WeekDay(LocalTime(t)) (0 = Sunday). -/
def getDayJs (tz t : Int) : Int := (dayOf (t + tz) + 4) % 7

/-- JS `date.getFullYear()`. -/
def getFullYearJs (tz t : Int) : Int := yearFromDay (dayOf (t + tz))

/-- JS `date.getMonth()` (0-based). -/
def getMonthJs (tz t : Int) : Int := monthOfDay (dayOf (t + tz))

/-- JS `date.getDate()` (day of month, 1-based). -/
def getDateJs (tz t : Int) : Int := dateOfDay (dayOf (t + tz))

/-- JS `date.setHours(h, mi, s, ms)`: keeps the local day, replaces the
time within the day. -/
def setHoursJs (tz t h mi s ms : Int) : Int :=
  dayOf (t + tz) * msPerDay + (((h * 60 + mi) * 60 + s) * 1000 + ms) - tz

/-- JS `date.setDate(d)`: MakeDay from the local year and month with the new
day of month, keeping the time within the day. -/
def setDateJs (tz t d : Int) : Int :=
  makeDay (yearFromDay (dayOf (t + tz))) (monthOfDay (dayOf (t + tz))) d * msPerDay
    + timeWithinDay (t + tz) - tz

/-- JS `new Date(y, m, d)`: local midnight of MakeDay(MakeFullYear(y), m, d). -/
def newDateYMD (tz y m d : Int) : Int := makeDay (makeFullYear y) m d * msPerDay - tz

/-! ## Date ranges (src/generate-work-report.js lines 61-228) -/

/-- Resolved date range: a pair of UTC instants.  The source uses the field
names `start` and `end`; `end` is reserved in Lean so the second field is
named `stop`. -/
structure DateRange where
  start : Int
  stop : Int
deriving DecidableEq, Repr

/-- Errors of getCustomRange.  The script prints a message and exits; the
spec names these exits InvalidDateError and InvertedRangeError. -/
inductive RangeError where
  | invalidDate
  | invertedRange
deriving DecidableEq, Repr

instance {ε α : Type} [DecidableEq ε] [DecidableEq α] : DecidableEq (Except ε α) := fun a b =>
  match a, b with
  | .ok x, .ok y => if h : x = y then .isTrue (by rw [h]) else .isFalse (by simp [h])
  | .error x, .error y => if h : x = y then .isTrue (by rw [h]) else .isFalse (by simp [h])
  | .ok _, .error _ => .isFalse (by simp)
  | .error _, .ok _ => .isFalse (by simp)

/-- getLastWeekRange (source lines 64-75). -/
def getLastWeekRange (tz now : Int) : DateRange :=
  let currentDay := getDayJs tz now
  let daysToLastSaturday := if currentDay = 6 then 7 else currentDay + 1
  let lastSaturday0 := setDateJs tz now (getDateJs tz now - daysToLastSaturday)
  let lastSaturday := setHoursJs tz lastSaturday0 23 59 59 999
  let lastSunday0 := setDateJs tz lastSaturday (getDateJs tz lastSaturday - 6)
  let lastSunday := setHoursJs tz lastSunday0 0 0 0 0
  { start := lastSunday, stop := lastSaturday }

/-- getThisWeekRange (source lines 80-89). -/
def getThisWeekRange (tz now : Int) : DateRange :=
  let currentDay := getDayJs tz now
  let thisSunday0 := setDateJs tz now (getDateJs tz now - currentDay)
  let thisSunday := setHoursJs tz thisSunday0 0 0 0 0
  let e := setHoursJs tz now 23 59 59 999
  { start := thisSunday, stop := e }

/-- getLastMonthRange (source lines 94-101). -/
def getLastMonthRange (tz now : Int) : DateRange :=
  let firstDay0 := newDateYMD tz (getFullYearJs tz now) (getMonthJs tz now - 1) 1
  let firstDay := setHoursJs tz firstDay0 0 0 0 0
  let lastDay0 := newDateYMD tz (getFullYearJs tz now) (getMonthJs tz now) 0
  let lastDay := setHoursJs tz lastDay0 23 59 59 999
  { start := firstDay, stop := lastDay }

/-- getThisMonthRange (source lines 106-113). -/
def getThisMonthRange (tz now : Int) : DateRange :=
  let firstDay0 := newDateYMD tz (getFullYearJs tz now) (getMonthJs tz now) 1
  let firstDay := setHoursJs tz firstDay0 0 0 0 0
  let e := setHoursJs tz now 23 59 59 999
  { start := firstDay, stop := e }

/-- getLastQuarterRange (source lines 118-132). -/
def getLastQuarterRange (tz now : Int) : DateRange :=
  let currentQuarter := getMonthJs tz now / 3
  let lastQuarterStartMonth0 := (currentQuarter - 1) * 3
  let year0 := getFullYearJs tz now
  let lastQuarterStartMonth := if currentQuarter = 0 then 9 else lastQuarterStartMonth0
  let year := if currentQuarter = 0 then year0 - 1 else year0
  let firstDay := setHoursJs tz (newDateYMD tz year lastQuarterStartMonth 1) 0 0 0 0
  let lastDay := setHoursJs tz (newDateYMD tz year (lastQuarterStartMonth + 3) 0) 23 59 59 999
  { start := firstDay, stop := lastDay }

/-- getLastYearRange (source lines 137-145). -/
def getLastYearRange (tz now : Int) : DateRange :=
  let lastYear := getFullYearJs tz now - 1
  let firstDay := setHoursJs tz (newDateYMD tz lastYear 0 1) 0 0 0 0
  let lastDay := setHoursJs tz (newDateYMD tz lastYear 11 31) 23 59 59 999
  { start := firstDay, stop := lastDay }

/-- getThisYearRange (source lines 150-157). -/
def getThisYearRange (tz now : Int) : DateRange :=
  let firstDay := setHoursJs tz (newDateYMD tz (getFullYearJs tz now) 0 1) 0 0 0 0
  let e := setHoursJs tz now 23 59 59 999
  { start := firstDay, stop := e }

/-! ## Parsing of explicit from/to dates -/

/-- Numeric value of a digit string. -/
def digitsVal (s : Str) : Nat := s.foldl (fun a c => 10 * a + (c.toNat - 48)) 0

/-- Whether a string is nonempty and all decimal digits. -/
def allDigits (s : Str) : Bool := !s.isEmpty && s.all Char.isDigit

/-- Split a string at every occurrence of a separator character
(JS `String.prototype.split` with a one-character separator). -/
def splitOnChar (sep : Char) : Str → List Str
  | [] => [[]]
  | c :: rest =>
    if c = sep then [] :: splitOnChar sep rest
    else
      match splitOnChar sep rest with
      | [] => [[c]]
      | h :: t => (c :: h) :: t

/-- Number of days in a (1-based) month of a year, derived from MakeDay. -/
def daysInMonthOf (y m : Int) : Int := makeDay y m 1 - makeDay y (m - 1) 1

/-- JS `new Date(string)` on a date-only string: ECMA-262 accepts exactly the
format YYYY-MM-DD with a valid calendar date and interprets it as midnight
UTC; anything else yields an invalid date (NaN), modelled as `none`.
(No two-digit-year rule applies to string parsing.) -/
def parseDateJs (s : Str) : Option Int :=
  match splitOnChar '-' s with
  | [ys, ms, ds] =>
    if allDigits ys && allDigits ms && allDigits ds
        && decide (ys.length = 4) && decide (ms.length = 2) && decide (ds.length = 2) then
      if 1 ≤ (digitsVal ms : Int) ∧ (digitsVal ms : Int) ≤ 12 ∧ 1 ≤ (digitsVal ds : Int) ∧
          (digitsVal ds : Int) ≤ daysInMonthOf (digitsVal ys) (digitsVal ms) then
        some (makeDay (digitsVal ys) ((digitsVal ms : Int) - 1) (digitsVal ds) * msPerDay)
      else none
    else none
  | _ => none

/-- getCustomRange (source lines 162-176).  The source constructs both dates,
clamps them with setHours, reports InvalidDateError if either failed to
parse, then InvertedRangeError if start > end. -/
def getCustomRange (tz : Int) (fromDate toDate : Str) : Except RangeError DateRange :=
  match parseDateJs fromDate, parseDateJs toDate with
  | some fv, some tv =>
    let start := setHoursJs tz fv 0 0 0 0
    let e := setHoursJs tz tv 23 59 59 999
    if start > e then .error .invertedRange else .ok { start := start, stop := e }
  | _, _ => .error .invalidDate

/-- getDateRange (source lines 181-202): explicit range takes priority,
otherwise dispatch on the lower-cased period keyword, defaulting to week. -/
def getDateRange (tz now : Int) (period : Option Str) (fromDate toDate : Option Str) :
    Except RangeError DateRange :=
  match fromDate, toDate with
  | some f, some t => getCustomRange tz f t
  | _, _ =>
    let p := period.map (List.map Char.toLower)
    if p = some ("thisweek".toList) then .ok (getThisWeekRange tz now)
    else if p = some ("month".toList) then .ok (getLastMonthRange tz now)
    else if p = some ("thismonth".toList) then .ok (getThisMonthRange tz now)
    else if p = some ("quarter".toList) then .ok (getLastQuarterRange tz now)
    else if p = some ("year".toList) then .ok (getLastYearRange tz now)
    else if p = some ("thisyear".toList) then .ok (getThisYearRange tz now)
    else .ok (getLastWeekRange tz now)

/-- formatDateForGit (source lines 207-209): `date.toISOString().split('T')[0]`,
i.e. the UTC calendar date (year, month 1-based, day) of the instant. -/
def formatDateForGit (t : Int) : Int × Int × Int :=
  (yearFromDay (dayOf t), monthOfDay (dayOf t) + 1, dateOfDay (dayOf t))

/-- Local calendar date (year, month 1-based, day) of an instant. -/
def localCivilDate (tz t : Int) : Int × Int × Int :=
  (getFullYearJs tz t, getMonthJs tz t + 1, getDateJs tz t)

/-- Predicate: the resolution succeeded and the range is ordered. -/
def rangeOrdered : Except RangeError DateRange → Prop
  | .ok r => r.start ≤ r.stop
  | .error _ => False

/-! ## String utilities of the branch/commit pipeline -/

/-- JS whitespace trimmed by `String.prototype.trim`. -/
def isJsSpace (c : Char) : Bool :=
  c = ' ' || c = '\t' || c = '\n' || c = '\r' || c = '\x0b' || c = '\x0c'

/-- JS `str.trim()`. -/
def trimJs (s : Str) : Str :=
  ((s.dropWhile isJsSpace).reverse.dropWhile isJsSpace).reverse

/-- JS `str.includes(pat)`. -/
def containsSub (pat : Str) : Str → Bool
  | [] => pat.isPrefixOf []
  | c :: rest => pat.isPrefixOf (c :: rest) || containsSub pat rest

/-- JS `str.replace(pat, '')` with a string pattern: removes the first
occurrence of `pat` (the source replaces with the empty string). -/
def replaceFirst (pat : Str) : Str → Str
  | [] => []
  | c :: rest =>
    if pat.isPrefixOf (c :: rest) then (c :: rest).drop pat.length
    else c :: replaceFirst pat rest

/-- JS `[...new Set(l)]` with an accumulator of already-seen values:
keeps the first occurrence of each value. -/
def jsDedupAux {α : Type} [DecidableEq α] (seen : List α) : List α → List α
  | [] => []
  | a :: rest => if a ∈ seen then jsDedupAux seen rest else a :: jsDedupAux (a :: seen) rest

/-- JS `[...new Set(l)]`: deduplicate keeping first occurrences. -/
def jsDedup {α : Type} [DecidableEq α] (l : List α) : List α := jsDedupAux [] l

/-! ## Branch enumeration (getAllBranches, source lines 233-247) -/

/-- Lines of the `git branch -a` output (empty output for a failed call). -/
def branchLines : Option Str → List Str
  | none => []
  | some out => splitOnChar '\n' out

/-- getAllBranches: split the git output into lines, drop blank lines, drop
lines containing "stash" or starting with "tag:", trim and delete the first
occurrence of "origin/"; a git failure yields the empty list. -/
def getAllBranches (gitOut : Option Str) : List Str :=
  match gitOut with
  | none => []
  | some output =>
    (((splitOnChar '\n' output).filter (fun b => !(trimJs b).isEmpty)).filter
        (fun b => !containsSub ("stash".toList) b && !(("tag:".toList).isPrefixOf b))).map
      (fun b => replaceFirst ("origin/".toList) (trimJs b))

/-! ## Commits and aggregation (source lines 266-325) -/

/-- Parsed commit record (source lines 280-286). -/
structure Commit where
  hash : Str
  fullHash : Str
  message : Str
  author : Str
  date : Str
deriving DecidableEq, Repr

/-- Split a string at every occurrence of a nonempty separator string
(JS `String.prototype.split`; the source only splits on "|||"). -/
def splitOnSub (pat : Str) (s : Str) : List Str :=
  match s with
  | [] => [[]]
  | c :: rest =>
    if pat ≠ [] ∧ pat.isPrefixOf (c :: rest) then
      [] :: splitOnSub pat (rest.drop (pat.length - 1))
    else
      match splitOnSub pat rest with
      | [] => [[c]]
      | h :: t => (c :: h) :: t
termination_by s.length
decreasing_by
  · simp only [List.length_cons, List.length_drop]
    omega
  · simp only [List.length_cons]
    omega

/-- Parse one line of `git log` output (source lines 278-286): split on "|||"
into hash, message, author, date; the short hash is the first 7 characters. -/
def parseLogLine (line : Str) : Commit :=
  let parts := splitOnSub ("|||".toList) line
  let hash := parts.getD 0 []
  let message := parts.getD 1 []
  let authorName := parts.getD 2 []
  let date := parts.getD 3 []
  { hash := hash.take 7, fullHash := hash, message := trimJs message,
    author := trimJs authorName, date := trimJs date }

/-- getCommitsForBranch (source lines 266-291): run `git log` for the branch
(the date window and author filter are baked into the external call,
modelled by `gitLog`), split the output into nonblank lines and parse them;
any failure of the call is caught and yields the empty list. -/
def getCommitsForBranch (gitLog : Str → Option Str) (branch : Str) : List Commit :=
  match gitLog branch with
  | none => []
  | some output =>
    ((splitOnChar '\n' output).filter (fun l => !(trimJs l).isEmpty)).map parseLogLine

/-- The filter of source lines 309-315: keep a commit iff its full hash is
not in the seen set, adding kept hashes to the set as the list is walked
(the JS filter callback mutates `globalSeenHashes` while iterating). -/
def filterNewCommits (seen : List Str) : List Commit → List Commit × List Str
  | [] => ([], seen)
  | c :: cs =>
    if c.fullHash ∈ seen then filterNewCommits seen cs
    else
      let r := filterNewCommits (c.fullHash :: seen) cs
      (c :: r.1, r.2)

/-- The loop of source lines 307-319: walk the branches in order, filter each
branch against the global seen set, and record the branch only when its
filtered list is nonempty. -/
def aggregateBranches (provider : Str → List Commit) :
    List Str → List Str → List (Str × List Commit)
  | [], _ => []
  | b :: bs, seen =>
    let p := filterNewCommits seen (provider b)
    let rest := aggregateBranches provider bs p.2
    if p.1.isEmpty then rest else (b, p.1) :: rest

/-- getCommitsByBranch (source lines 296-325): deduplicate the branch list,
then aggregate with a global seen set starting empty.  The result is the
insertion-ordered mapping branch -> unique commits. -/
def getCommitsByBranch (provider : Str → List Commit) (branches : List Str) :
    List (Str × List Commit) :=
  aggregateBranches provider (jsDedup branches) []

/-- Total number of commits across the mapping (generateMarkdownReport,
source lines 332-335). -/
def totalCommits (m : List (Str × List Commit)) : Nat :=
  (m.map (fun bl => bl.2.length)).sum

/-- First branch, in the given iteration order, whose provider result
contains a commit with the given full hash. -/
def firstBranchWith (provider : Str → List Commit) (branches : List Str) (h : Str) :
    Option Str :=
  branches.find? (fun b => (provider b).any (fun c => decide (c.fullHash = h)))

/-- The set of full-hash identities of a commit list. -/
def hashesOf (cs : List Commit) : Finset Str := (cs.map (fun c => c.fullHash)).toFinset

/-- The set of distinct full commit identities returned by the union of the
per-branch queries. -/
def unionHashes (provider : Str → List Commit) : List Str → Finset Str
  | [] => ∅
  | b :: bs => hashesOf (provider b) ∪ unionHashes provider bs

/-! ## Calendar lemmas -/

theorem daysFromYear_succ (y : Int) :
    daysFromYear (y + 1) = daysFromYear y + 365 + leapDays (isLeap y) := by
  cases hL : isLeap y <;>
    simp only [isLeap, decide_eq_true_eq, decide_eq_false_iff_not, not_or, not_and,
      not_not] at hL <;>
    simp only [leapDays, daysFromYear] <;> omega

theorem daysFromYear_step (y : Int) :
    daysFromYear y + 365 ≤ daysFromYear (y + 1) ∧ daysFromYear (y + 1) ≤ daysFromYear y + 366 := by
  unfold daysFromYear
  constructor <;> omega

theorem yearGuess_window (z : Int) :
    daysFromYear (yearGuess z - 1) ≤ z ∧ z < daysFromYear (yearGuess z + 2) := by
  unfold yearGuess daysFromYear
  constructor <;> omega

theorem yearFromDay_spec (z : Int) :
    daysFromYear (yearFromDay z) ≤ z ∧ z < daysFromYear (yearFromDay z + 1) := by
  have hw := yearGuess_window z
  have h3 := daysFromYear_step (yearGuess z + 1)
  have e1 : yearGuess z - 1 + 1 = yearGuess z := by omega
  have e2 : yearGuess z + 1 + 1 = yearGuess z + 2 := by omega
  unfold yearFromDay
  split_ifs with ha hb
  · rw [e1]
    exact ⟨hw.1, ha⟩
  · rw [e2]
    exact ⟨hb, hw.2⟩
  · exact ⟨not_lt.mp ha, not_le.mp hb⟩

theorem monthOffset_eval (leap : Bool) :
    monthOffset leap 0 = 0 ∧ monthOffset leap 1 = 31 ∧ monthOffset leap 2 = 59 + leapDays leap ∧
    monthOffset leap 3 = 90 + leapDays leap ∧ monthOffset leap 4 = 120 + leapDays leap ∧
    monthOffset leap 5 = 151 + leapDays leap ∧ monthOffset leap 6 = 181 + leapDays leap ∧
    monthOffset leap 7 = 212 + leapDays leap ∧ monthOffset leap 8 = 243 + leapDays leap ∧
    monthOffset leap 9 = 273 + leapDays leap ∧ monthOffset leap 10 = 304 + leapDays leap ∧
    monthOffset leap 11 = 334 + leapDays leap := by
  cases leap <;> decide

theorem leapDays_cases (leap : Bool) : leapDays leap = 0 ∨ leapDays leap = 1 := by
  cases leap <;> simp [leapDays]

set_option maxHeartbeats 4000000 in
theorem monthFromDWY_bounds (leap : Bool) (dwy : Int) :
    0 ≤ monthFromDayWithinYear leap dwy ∧ monthFromDayWithinYear leap dwy ≤ 11 := by
  unfold monthFromDayWithinYear
  generalize leapDays leap = lp
  split_ifs <;> omega

set_option maxHeartbeats 4000000 in
theorem monthFromDWY_lb (leap : Bool) (dwy : Int) (h0 : 0 ≤ dwy) :
    monthOffset leap (monthFromDayWithinYear leap dwy) ≤ dwy := by
  have ho := monthOffset_eval leap
  have hl := leapDays_cases leap
  unfold monthFromDayWithinYear
  split_ifs <;> omega

theorem monthOffset_zero (leap : Bool) : monthOffset leap 0 = 0 := by
  cases leap <;> rfl

theorem dayCivil_roundtrip (z : Int) :
    makeDay (yearFromDay z) (monthOfDay z) (dateOfDay z) = z := by
  have hm := monthFromDWY_bounds (isLeap (yearFromDay z)) (z - daysFromYear (yearFromDay z))
  unfold makeDay dateOfDay monthOfDay
  set m := monthFromDayWithinYear (isLeap (yearFromDay z)) (z - daysFromYear (yearFromDay z))
    with hmdef
  have h1 : m / 12 = 0 := by omega
  have h2 : m % 12 = m := by omega
  rw [h1, h2, add_zero]
  omega

theorem makeDay_d (y m d k : Int) : makeDay y m (d - k) = makeDay y m d - k := by
  unfold makeDay
  omega

theorem makeDay_small (y m d : Int) (h0 : 0 ≤ m) (h1 : m ≤ 11) :
    makeDay y m d = daysFromYear y + monthOffset (isLeap y) m + d - 1 := by
  have h2 : m / 12 = 0 := by omega
  have h3 : m % 12 = m := by omega
  unfold makeDay
  rw [h2, h3, add_zero]

theorem monthOffset_succ (leap : Bool) (r : Int) (h0 : 0 ≤ r) (h1 : r ≤ 10) :
    28 ≤ monthOffset leap (r + 1) - monthOffset leap r ∧
      monthOffset leap (r + 1) - monthOffset leap r ≤ 31 := by
  have h : r = 0 ∨ r = 1 ∨ r = 2 ∨ r = 3 ∨ r = 4 ∨ r = 5 ∨ r = 6 ∨ r = 7 ∨ r = 8 ∨ r = 9 ∨
      r = 10 := by omega
  rcases h with h | h | h | h | h | h | h | h | h | h | h <;> subst h <;> cases leap <;> decide

theorem makeDay_month_succ (y m : Int) :
    makeDay y m 1 + 28 ≤ makeDay y (m + 1) 1 ∧ makeDay y (m + 1) 1 ≤ makeDay y m 1 + 31 := by
  rcases le_or_lt (m % 12) 10 with h | h
  · have hq : (m + 1) / 12 = m / 12 := by omega
    have hr : (m + 1) % 12 = m % 12 + 1 := by omega
    have ho := monthOffset_succ (isLeap (y + m / 12)) (m % 12) (by omega) h
    unfold makeDay
    rw [hq, hr]
    omega
  · have h11 : m % 12 = 11 := by omega
    have hq : (m + 1) / 12 = m / 12 + 1 := by omega
    have hr : (m + 1) % 12 = 0 := by omega
    have hs := daysFromYear_succ (y + m / 12)
    have ho11 : monthOffset (isLeap (y + m / 12)) 11 = 334 + leapDays (isLeap (y + m / 12)) := by
      cases isLeap (y + m / 12) <;> decide
    have hlp : 0 ≤ leapDays (isLeap (y + m / 12)) ∧ leapDays (isLeap (y + m / 12)) ≤ 1 := by
      cases isLeap (y + m / 12) <;> decide
    have hassoc : y + (m / 12 + 1) = y + m / 12 + 1 := by ring
    have hoz := monthOffset_zero (isLeap (y + m / 12 + 1))
    unfold makeDay
    rw [hq, hr, h11, hassoc]
    omega

theorem makeDay_month_le (y m : Int) (k : Nat) :
    makeDay y m 1 ≤ makeDay y (m + (k : Int)) 1 := by
  induction k with
  | zero => simp
  | succ n ih =>
    have h := makeDay_month_succ y (m + (n : Int))
    have e : (m + ((n : Nat) + 1 : Nat) : Int) = (m + (n : Int)) + 1 := by push_cast; ring
    rw [e]
    omega

/-! ## Instant and range lemmas -/

theorem dayOf_decompose (t : Int) : dayOf t * msPerDay + timeWithinDay t = t := by
  unfold dayOf timeWithinDay msPerDay
  omega

theorem timeWithinDay_bounds (t : Int) : 0 ≤ timeWithinDay t ∧ timeWithinDay t < msPerDay := by
  unfold timeWithinDay msPerDay
  omega

theorem setDateJs_shift (tz t k : Int) :
    setDateJs tz t (getDateJs tz t - k) = t - k * msPerDay := by
  unfold setDateJs getDateJs
  rw [makeDay_d, dayCivil_roundtrip]
  unfold dayOf timeWithinDay msPerDay
  omega

theorem makeDay_first_le (z : Int) :
    makeDay (yearFromDay z) (monthOfDay z) 1 ≤ z ∧ daysFromYear (yearFromDay z) ≤ z := by
  have hy := yearFromDay_spec z
  have hm := monthFromDWY_bounds (isLeap (yearFromDay z)) (z - daysFromYear (yearFromDay z))
  have hlb := monthFromDWY_lb (isLeap (yearFromDay z)) (z - daysFromYear (yearFromDay z))
    (by omega)
  unfold monthOfDay
  rw [makeDay_small _ _ _ (by omega) (by omega)]
  omega

theorem makeFullYear_out (y : Int) (h : y < 0 ∨ 99 < y) : makeFullYear y = y := by
  unfold makeFullYear
  split_ifs with hc
  · omega
  · rfl

theorem getLastWeekRange_eq (tz now : Int) :
    getLastWeekRange tz now =
      { start := (dayOf (now + tz) - (if getDayJs tz now = 6 then 7 else getDayJs tz now + 1)
            - 6) * msPerDay - tz,
        stop := (dayOf (now + tz) - (if getDayJs tz now = 6 then 7 else getDayJs tz now + 1))
            * msPerDay + (msPerDay - 1) - tz } := by
  simp only [getLastWeekRange]
  rw [setDateJs_shift, setDateJs_shift]
  simp only [setHoursJs, DateRange.mk.injEq]
  generalize (if getDayJs tz now = 6 then (7 : Int) else getDayJs tz now + 1) = db
  unfold dayOf msPerDay
  constructor <;> omega

theorem getThisWeekRange_eq (tz now : Int) :
    getThisWeekRange tz now =
      { start := (dayOf (now + tz) - getDayJs tz now) * msPerDay - tz,
        stop := dayOf (now + tz) * msPerDay + (msPerDay - 1) - tz } := by
  simp only [getThisWeekRange]
  rw [setDateJs_shift]
  simp only [setHoursJs, DateRange.mk.injEq]
  generalize getDayJs tz now = db
  unfold dayOf msPerDay
  constructor <;> omega

theorem getLastMonthRange_eq (tz now : Int) :
    getLastMonthRange tz now =
      { start := makeDay (makeFullYear (getFullYearJs tz now)) (getMonthJs tz now - 1) 1
            * msPerDay - tz,
        stop := makeDay (makeFullYear (getFullYearJs tz now)) (getMonthJs tz now) 0
            * msPerDay + (msPerDay - 1) - tz } := by
  simp only [getLastMonthRange, newDateYMD, setHoursJs, dayOf, msPerDay, DateRange.mk.injEq]
  constructor <;> omega

theorem getThisMonthRange_eq (tz now : Int) :
    getThisMonthRange tz now =
      { start := makeDay (makeFullYear (getFullYearJs tz now)) (getMonthJs tz now) 1
            * msPerDay - tz,
        stop := dayOf (now + tz) * msPerDay + (msPerDay - 1) - tz } := by
  simp only [getThisMonthRange, newDateYMD, setHoursJs, dayOf, msPerDay, DateRange.mk.injEq]
  constructor <;> omega

theorem getLastQuarterRange_eq (tz now : Int) :
    getLastQuarterRange tz now =
      { start := makeDay
            (makeFullYear (if getMonthJs tz now / 3 = 0 then getFullYearJs tz now - 1
              else getFullYearJs tz now))
            (if getMonthJs tz now / 3 = 0 then 9 else (getMonthJs tz now / 3 - 1) * 3) 1
            * msPerDay - tz,
        stop := makeDay
            (makeFullYear (if getMonthJs tz now / 3 = 0 then getFullYearJs tz now - 1
              else getFullYearJs tz now))
            ((if getMonthJs tz now / 3 = 0 then 9 else (getMonthJs tz now / 3 - 1) * 3) + 3) 0
            * msPerDay + (msPerDay - 1) - tz } := by
  simp only [getLastQuarterRange, newDateYMD, setHoursJs, dayOf, msPerDay, DateRange.mk.injEq]
  constructor <;> omega

theorem getLastYearRange_eq (tz now : Int) :
    getLastYearRange tz now =
      { start := makeDay (makeFullYear (getFullYearJs tz now - 1)) 0 1 * msPerDay - tz,
        stop := makeDay (makeFullYear (getFullYearJs tz now - 1)) 11 31 * msPerDay
            + (msPerDay - 1) - tz } := by
  simp only [getLastYearRange, newDateYMD, setHoursJs, dayOf, msPerDay, DateRange.mk.injEq]
  constructor <;> omega

theorem getThisYearRange_eq (tz now : Int) :
    getThisYearRange tz now =
      { start := makeDay (makeFullYear (getFullYearJs tz now)) 0 1 * msPerDay - tz,
        stop := dayOf (now + tz) * msPerDay + (msPerDay - 1) - tz } := by
  simp only [getThisYearRange, newDateYMD, setHoursJs, dayOf, msPerDay, DateRange.mk.injEq]
  constructor <;> omega

theorem getDayJs_bounds (tz t : Int) : 0 ≤ getDayJs tz t ∧ getDayJs tz t ≤ 6 := by
  unfold getDayJs
  omega

theorem getLastWeekRange_ordered (tz now : Int) :
    (getLastWeekRange tz now).start ≤ (getLastWeekRange tz now).stop := by
  rw [getLastWeekRange_eq]
  dsimp only
  generalize (if getDayJs tz now = 6 then (7 : Int) else getDayJs tz now + 1) = db
  unfold msPerDay
  omega

theorem getThisWeekRange_ordered (tz now : Int) :
    (getThisWeekRange tz now).start ≤ (getThisWeekRange tz now).stop := by
  have hd := getDayJs_bounds tz now
  rw [getThisWeekRange_eq]
  dsimp only
  unfold msPerDay
  omega

theorem getLastMonthRange_ordered (tz now : Int) :
    (getLastMonthRange tz now).start ≤ (getLastMonthRange tz now).stop := by
  have h1 := makeDay_month_succ (makeFullYear (getFullYearJs tz now)) (getMonthJs tz now - 1)
  have e : getMonthJs tz now - 1 + 1 = getMonthJs tz now := by ring
  rw [e] at h1
  have h2 := makeDay_d (makeFullYear (getFullYearJs tz now)) (getMonthJs tz now) 1 1
  norm_num at h2
  rw [getLastMonthRange_eq]
  dsimp only
  unfold msPerDay
  omega

theorem getThisMonthRange_ordered (tz now : Int)
    (h : getFullYearJs tz now < 0 ∨ 99 < getFullYearJs tz now) :
    (getThisMonthRange tz now).start ≤ (getThisMonthRange tz now).stop := by
  rw [getThisMonthRange_eq, makeFullYear_out _ h]
  dsimp only
  have h1 := makeDay_first_le (dayOf (now + tz))
  unfold getFullYearJs getMonthJs
  unfold msPerDay
  omega

theorem getLastQuarterRange_ordered (tz now : Int) :
    (getLastQuarterRange tz now).start ≤ (getLastQuarterRange tz now).stop := by
  rw [getLastQuarterRange_eq]
  dsimp only
  set Y := makeFullYear (if getMonthJs tz now / 3 = 0 then getFullYearJs tz now - 1
    else getFullYearJs tz now) with hY
  set q := (if getMonthJs tz now / 3 = 0 then (9 : Int) else (getMonthJs tz now / 3 - 1) * 3)
    with hq
  have h1 := makeDay_month_succ Y q
  have h2 := makeDay_month_succ Y (q + 1)
  have h3 := makeDay_month_succ Y (q + 2)
  have e2 : q + 1 + 1 = q + 2 := by ring
  have e3 : q + 2 + 1 = q + 3 := by ring
  rw [e2] at h2
  rw [e3] at h3
  have h4 := makeDay_d Y (q + 3) 1 1
  norm_num at h4
  unfold msPerDay
  omega

theorem getLastYearRange_ordered (tz now : Int) :
    (getLastYearRange tz now).start ≤ (getLastYearRange tz now).stop := by
  rw [getLastYearRange_eq]
  dsimp only
  have h := makeDay_month_le (makeFullYear (getFullYearJs tz now - 1)) 0 11
  norm_num at h
  have h2 := makeDay_d (makeFullYear (getFullYearJs tz now - 1)) 11 31 30
  norm_num at h2
  unfold msPerDay
  omega

theorem getThisYearRange_ordered (tz now : Int)
    (h : getFullYearJs tz now < 0 ∨ 99 < getFullYearJs tz now) :
    (getThisYearRange tz now).start ≤ (getThisYearRange tz now).stop := by
  rw [getThisYearRange_eq, makeFullYear_out _ h]
  dsimp only
  have h1 := yearFromDay_spec (dayOf (now + tz))
  have h2 : makeDay (yearFromDay (dayOf (now + tz))) 0 1
      = daysFromYear (yearFromDay (dayOf (now + tz))) := by
    rw [makeDay_small _ _ _ (by norm_num) (by norm_num), monthOffset_zero]
    ring
  unfold getFullYearJs
  unfold msPerDay
  omega

/-! ## Lemmas about parsing and the custom range -/

theorem parseDateJs_midnight (s : Str) (v : Int) (h : parseDateJs s = some v) :
    v % msPerDay = 0 := by
  unfold parseDateJs at h
  split at h
  all_goals try exact Option.noConfusion h
  split_ifs at h
  all_goals try exact Option.noConfusion h
  all_goals rw [Option.some.injEq] at h
  all_goals subst h
  all_goals unfold msPerDay
  all_goals omega

theorem makeDay_dec31 (y : Int) : makeDay y 12 0 = makeDay y 11 31 := by
  have hs := daysFromYear_succ y
  have h1 := monthOffset_eval (isLeap y)
  have hz := monthOffset_zero (isLeap (y + 1))
  unfold makeDay
  norm_num
  omega

/-! ## Claims about date-range resolution -/

/-- C2 (amended): every boundary instant of a resolved range is computed in
the local zone, but formatDateForGit converts through toISOString, i.e. to
the UTC calendar date of the instant.  The start and end calendar dates
handed to the log provider therefore equal the local-time calendar dates of
the range boundaries exactly when the process zone offset is zero (UTC); a
nonzero offset shifts them (see the counterexample). -/
theorem C2_handed_dates_utc (tz now : Int) (period : Option Str) (fromDate toDate : Option Str)
    (r : DateRange) (hr : getDateRange tz now period fromDate toDate = .ok r) (h0 : tz = 0) :
    formatDateForGit r.start = localCivilDate tz r.start ∧
    formatDateForGit r.stop = localCivilDate tz r.stop := by
  subst h0
  unfold formatDateForGit localCivilDate getFullYearJs getMonthJs getDateJs
  constructor <;> simp

theorem C2_handed_dates_utc_witness :
    formatDateForGit (1767225600000 : Int) = localCivilDate 0 1767225600000 ∧
    formatDateForGit (1767484799999 : Int) = localCivilDate 0 1767484799999 :=
  C2_handed_dates_utc 0 0 none (some ("2026-01-01".toList)) (some ("2026-01-03".toList))
    { start := 1767225600000, stop := 1767484799999 } (by decide) rfl

/-- C2 counterexample: in a UTC+1 zone (offset 3600000 ms), the range
resolved from from=2026-01-02, to=2026-01-02 starts at local midnight of
January 2, but the date handed to the provider for the start boundary is
2026-01-01 (the UTC date of that instant), not the local date 2026-01-02. -/
theorem C2_handed_dates_counterexample :
    getDateRange 3600000 0 none (some ("2026-01-02".toList)) (some ("2026-01-02".toList))
      = .ok { start := 1767308400000, stop := 1767394799999 }
    ∧ formatDateForGit 1767308400000 = (2026, 1, 1)
    ∧ localCivilDate 3600000 1767308400000 = (2026, 1, 2)
    ∧ ((2026, 1, 1) : Int × Int × Int) ≠ (2026, 1, 2) :=
  ⟨by decide, by decide, by decide, by decide⟩

/-- C3 (amended): with both from and to supplied, resolution fails with
InvalidDateError iff either string does not parse as a valid YYYY-MM-DD
calendar date; given both parse, it fails with InvertedRangeError iff the
from date is after the to date; and when the process zone offset is
nonnegative and below one day and the range is not inverted it returns
exactly the from date at 00:00:00.000 local time through the to date at
23:59:59.999 local time.  (With a negative offset each boundary lands one
local calendar day earlier, because a date-only string parses as UTC
midnight; see the counterexample.) -/
theorem C3_custom_range (tz : Int) (f t : Str) :
    (getCustomRange tz f t = .error .invalidDate ↔
      (parseDateJs f = none ∨ parseDateJs t = none))
    ∧ (∀ fv tv, parseDateJs f = some fv → parseDateJs t = some tv →
        (getCustomRange tz f t = .error .invertedRange ↔ tv < fv))
    ∧ (∀ fv tv, parseDateJs f = some fv → parseDateJs t = some tv →
        0 ≤ tz → tz < msPerDay → fv ≤ tv →
        getCustomRange tz f t = .ok { start := fv - tz, stop := tv + (msPerDay - 1) - tz }) := by
  refine ⟨?_, ?_, ?_⟩
  · cases hf : parseDateJs f <;> cases ht : parseDateJs t <;>
      simp only [getCustomRange, hf, ht] <;> try simp
    split_ifs <;> simp
  · intro fv tv hf ht
    have mf := parseDateJs_midnight f fv hf
    have mt := parseDateJs_midnight t tv ht
    simp only [getCustomRange, hf, ht]
    have hcond : setHoursJs tz fv 0 0 0 0 > setHoursJs tz tv 23 59 59 999 ↔ tv < fv := by
      unfold setHoursJs dayOf msPerDay
      unfold msPerDay at mf mt
      omega
    split_ifs with hgt
    · exact ⟨fun _ => hcond.mp hgt, fun _ => rfl⟩
    · refine ⟨fun hc => absurd hc (by simp), fun hc => absurd (hcond.mpr hc) hgt⟩
  · intro fv tv hf ht h0 h1 hle
    have mf := parseDateJs_midnight f fv hf
    have mt := parseDateJs_midnight t tv ht
    simp only [getCustomRange, hf, ht]
    have hngt : ¬ (setHoursJs tz fv 0 0 0 0 > setHoursJs tz tv 23 59 59 999) := by
      unfold setHoursJs dayOf msPerDay
      unfold msPerDay at mf mt
      omega
    rw [if_neg hngt]
    simp only [Except.ok.injEq, DateRange.mk.injEq]
    clear hngt
    simp only [setHoursJs, dayOf, msPerDay] at mf mt h1 ⊢
    constructor <;> omega

theorem C3_custom_range_witness :
    getCustomRange 0 ("2026-02-01".toList) ("2026-01-01".toList) = .error .invertedRange ∧
    getCustomRange 0 ("2026-13-01".toList) ("2026-01-01".toList) = .error .invalidDate ∧
    getCustomRange 0 ("2026-01-01".toList) ("2026-01-03".toList)
      = .ok { start := 1767225600000, stop := 1767484799999 } :=
  ⟨((C3_custom_range 0 ("2026-02-01".toList) ("2026-01-01".toList)).2.1
      1769904000000 1767225600000 (by decide) (by decide)).mpr (by decide),
   (C3_custom_range 0 ("2026-13-01".toList) ("2026-01-01".toList)).1.mpr (by decide),
   by
    have h := (C3_custom_range 0 ("2026-01-01".toList) ("2026-01-03".toList)).2.2
      1767225600000 1767398400000 (by decide) (by decide) (by decide) (by decide) (by decide)
    simpa using h⟩

/-- C3 counterexample: in a UTC-1 zone (offset -3600000 ms), the range
resolved from from=2026-01-01, to=2026-01-01 does not start on 2026-01-01
at 00:00:00.000 local time: both boundaries land on the previous local
calendar day, 2025-12-31, because the date-only string parses as UTC
midnight and setHours then clamps within the local day. -/
theorem C3_custom_range_counterexample :
    getCustomRange (-3600000) ("2026-01-01".toList) ("2026-01-01".toList)
      = .ok { start := 1767142800000, stop := 1767229199999 }
    ∧ localCivilDate (-3600000) 1767142800000 = (2025, 12, 31)
    ∧ ((2025, 12, 31) : Int × Int × Int) ≠ (2026, 1, 1) :=
  ⟨by decide, by decide, by decide⟩

/-- C4 (amended): for every period keyword and every now, the resolved
range satisfies start ≤ end, except that thismonth and thisyear (whose
start is built by the Date constructor from the current local year alone)
violate it when the local year of now lies in 0..99, where the
two-digit-year rule of the constructor maps the year to 1900+year.  For
all other keywords (week, thisweek, month, quarter, year, unrecognized or
absent, which default to week) the bound holds for every now. -/
theorem C4_resolve_ordered (tz now : Int) (period : Option Str)
    (h : (period.map (List.map Char.toLower) ≠ some ("thismonth".toList) ∧
          period.map (List.map Char.toLower) ≠ some ("thisyear".toList))
         ∨ getFullYearJs tz now < 0 ∨ 99 < getFullYearJs tz now) :
    rangeOrdered (getDateRange tz now period none none) := by
  simp only [getDateRange]
  split_ifs with h1 h2 h3 h4 h5 h6
  · exact getThisWeekRange_ordered tz now
  · exact getLastMonthRange_ordered tz now
  · rcases h with ⟨hA, _⟩ | hy
    · exact absurd h3 hA
    · exact getThisMonthRange_ordered tz now hy
  · exact getLastQuarterRange_ordered tz now
  · exact getLastYearRange_ordered tz now
  · rcases h with ⟨_, hB⟩ | hy
    · exact absurd h6 hB
    · exact getThisYearRange_ordered tz now hy
  · exact getLastWeekRange_ordered tz now

theorem C4_resolve_ordered_witness :
    rangeOrdered (getDateRange 0 0 (some ("week".toList)) none none) ∧
    rangeOrdered (getDateRange 0 0 (some ("thismonth".toList)) none none) :=
  ⟨C4_resolve_ordered 0 0 (some ("week".toList)) (Or.inl (by decide)),
   C4_resolve_ordered 0 0 (some ("thismonth".toList)) (Or.inr (Or.inr (by decide)))⟩

/-- C4 counterexample: with the clock set to 10 January of year 50 (a
representable JS instant) and period thismonth, the resolved range has
start in 1950 (two-digit-year rule) and end in year 50, so start > end. -/
theorem C4_resolve_ordered_counterexample :
    getDateRange 0 (makeDay 50 0 10 * msPerDay) (some ("thismonth".toList)) none none
      = .ok { start := -631152000000, stop := -60588432000001 }
    ∧ (-60588432000001 : Int) < -631152000000 :=
  ⟨by decide, by decide⟩

/-- C5 (confirmed): resolving the keyword week yields getLastWeekRange; its
start is a Sunday at 00:00:00.000 local time, its end is the Saturday six
days later at 23:59:59.999 (so the span is exactly 7 days minus 1 ms), the
end touches the boundary of the current week of now (the next millisecond
is the most recent local Sunday midnight), and when now falls on a
Saturday the range ends 7 days back. -/
theorem C5_week_span (tz now : Int) :
    getDateRange tz now (some ("week".toList)) none none = .ok (getLastWeekRange tz now)
    ∧ getDayJs tz (getLastWeekRange tz now).start = 0
    ∧ timeWithinDay ((getLastWeekRange tz now).start + tz) = 0
    ∧ (getLastWeekRange tz now).stop
        = (getLastWeekRange tz now).start + 6 * msPerDay + (msPerDay - 1)
    ∧ getDayJs tz (getLastWeekRange tz now).stop = 6
    ∧ (getLastWeekRange tz now).stop + 1 + tz
        = (dayOf (now + tz) - getDayJs tz now) * msPerDay
    ∧ (getDayJs tz now = 6 →
        dayOf ((getLastWeekRange tz now).stop + tz) = dayOf (now + tz) - 7) := by
  refine ⟨rfl, ?_⟩
  rw [getLastWeekRange_eq]
  dsimp only
  by_cases hd : getDayJs tz now = 6
  · rw [if_pos hd]
    unfold getDayJs at hd ⊢
    unfold timeWithinDay dayOf msPerDay at *
    refine ⟨by omega, by omega, by omega, by omega, by omega, fun _ => by omega⟩
  · rw [if_neg hd]
    unfold getDayJs at hd ⊢
    unfold timeWithinDay dayOf msPerDay at *
    exact ⟨by omega, by omega, by omega, by omega, by omega, fun hx => absurd hx hd⟩

theorem C5_week_span_witness :
    getDayJs 0 (2 * msPerDay) = 6 ∧
    dayOf ((getLastWeekRange 0 (2 * msPerDay)).stop + 0) = dayOf (2 * msPerDay + 0) - 7 :=
  ⟨by decide, (C5_week_span 0 (2 * msPerDay)).2.2.2.2.2.2 (by decide)⟩

/-- C6 (amended): for every now whose local month is January, February or
March and whose local year is not in 1..100 (so the two-digit-year rule of
the Date constructor does not distort year-1), the quarter keyword
resolves to 1 October at 00:00:00.000 local time through 31 December at
23:59:59.999 local time of the previous calendar year (months are 0-based
in makeDay, so month 9 is October and month 11 is December). -/
theorem C6_quarter_rollback (tz now : Int)
    (hm : getMonthJs tz now = 0 ∨ getMonthJs tz now = 1 ∨ getMonthJs tz now = 2)
    (hy : getFullYearJs tz now < 1 ∨ 100 < getFullYearJs tz now) :
    getLastQuarterRange tz now =
      { start := makeDay (getFullYearJs tz now - 1) 9 1 * msPerDay - tz,
        stop := makeDay (getFullYearJs tz now - 1) 11 31 * msPerDay + (msPerDay - 1) - tz } := by
  rw [getLastQuarterRange_eq]
  have hq : getMonthJs tz now / 3 = 0 := by omega
  have hmf : makeFullYear (getFullYearJs tz now - 1) = getFullYearJs tz now - 1 :=
    makeFullYear_out _ (by omega)
  simp only [if_pos hq, hmf]
  have e93 : (9 : Int) + 3 = 12 := by norm_num
  rw [e93, makeDay_dec31]

theorem C6_quarter_rollback_witness :
    getMonthJs 0 (makeDay 2026 1 1 * msPerDay) = 1 ∧
    getLastQuarterRange 0 (makeDay 2026 1 1 * msPerDay) =
      { start := makeDay (getFullYearJs 0 (makeDay 2026 1 1 * msPerDay) - 1) 9 1
          * msPerDay - 0,
        stop := makeDay (getFullYearJs 0 (makeDay 2026 1 1 * msPerDay) - 1) 11 31
          * msPerDay + (msPerDay - 1) - 0 } :=
  ⟨by decide,
   C6_quarter_rollback 0 (makeDay 2026 1 1 * msPerDay) (by decide) (by decide)⟩

/-- C6 counterexample: with the clock set to 1 February of year 50, the
quarter keyword resolves to Q4 of 1949, not Q4 of year 49: the code
computes year-1 = 49 and the Date constructor maps 49 to 1949. -/
theorem C6_quarter_rollback_counterexample :
    getMonthJs 0 (makeDay 50 1 1 * msPerDay) = 1
    ∧ getFullYearJs 0 (makeDay 50 1 1 * msPerDay) = 50
    ∧ yearFromDay (dayOf ((getLastQuarterRange 0 (makeDay 50 1 1 * msPerDay)).start + 0))
        = 1949
    ∧ (1949 : Int) ≠ 50 - 1 :=
  ⟨by decide, by decide, by decide, by decide⟩

/-! ## Aggregation lemmas -/

theorem filterNewCommits_spec (seen : List Str) (cs : List Commit) :
    hashesOf (filterNewCommits seen cs).1 = hashesOf cs \ seen.toFinset
    ∧ ((filterNewCommits seen cs).2).toFinset = hashesOf cs ∪ seen.toFinset
    ∧ ((filterNewCommits seen cs).1.map (fun c => c.fullHash)).Nodup
    ∧ ∀ c ∈ (filterNewCommits seen cs).1, c ∈ cs ∧ c.fullHash ∉ seen := by
  induction cs generalizing seen with
  | nil => simp [filterNewCommits, hashesOf]
  | cons c cs ih =>
    by_cases hc : c.fullHash ∈ seen
    · have hrec := ih seen
      simp only [filterNewCommits, if_pos hc]
      refine ⟨?_, ?_, hrec.2.2.1, ?_⟩
      · rw [hrec.1]
        ext x
        simp only [hashesOf, List.map_cons, List.toFinset_cons, Finset.mem_sdiff,
          Finset.mem_insert, List.mem_toFinset]
        by_cases hx : x = c.fullHash
        · subst hx
          simp [hc]
        · simp [hx]
      · rw [hrec.2.1]
        ext x
        simp only [hashesOf, List.map_cons, List.toFinset_cons, Finset.mem_union,
          Finset.mem_insert, List.mem_toFinset]
        by_cases hx : x = c.fullHash
        · subst hx
          simp [hc]
        · simp [hx]
      · intro c2 h2
        exact ⟨List.mem_cons_of_mem _ (hrec.2.2.2 c2 h2).1, (hrec.2.2.2 c2 h2).2⟩
    · have hrec := ih (c.fullHash :: seen)
      simp only [filterNewCommits, if_neg hc]
      refine ⟨?_, ?_, ?_, ?_⟩
      · show hashesOf (c :: (filterNewCommits (c.fullHash :: seen) cs).1) = _
        rw [hashesOf, List.map_cons, List.toFinset_cons]
        rw [show ((filterNewCommits (c.fullHash :: seen) cs).1.map
            (fun c => c.fullHash)).toFinset = hashesOf (filterNewCommits
            (c.fullHash :: seen) cs).1 from rfl, hrec.1]
        ext x
        simp only [hashesOf, List.map_cons, List.toFinset_cons, Finset.mem_sdiff,
          Finset.mem_insert, List.mem_toFinset, List.toFinset_cons, List.mem_cons]
        by_cases hx : x = c.fullHash
        · subst hx
          simp [hc]
        · simp [hx]
      · show ((filterNewCommits (c.fullHash :: seen) cs).2).toFinset = _
        rw [hrec.2.1]
        ext x
        simp only [hashesOf, List.map_cons, List.toFinset_cons, Finset.mem_union,
          Finset.mem_insert, List.mem_toFinset]
        by_cases hx : x = c.fullHash
        · subst hx
          simp
        · simp [hx]
      · show (List.map _ (c :: (filterNewCommits (c.fullHash :: seen) cs).1)).Nodup
        rw [List.map_cons]
        rw [List.nodup_cons]
        refine ⟨?_, hrec.2.2.1⟩
        intro hmem
        rcases List.mem_map.mp hmem with ⟨c2, h2, heq⟩
        exact (hrec.2.2.2 c2 h2).2 (heq ▸ List.mem_cons_self _ _)
      · intro c2 h2
        rcases List.mem_cons.mp h2 with rfl | h3
        · exact ⟨List.mem_cons_self _ _, hc⟩
        · refine ⟨List.mem_cons_of_mem _ (hrec.2.2.2 c2 h3).1, ?_⟩
          intro hs
          exact (hrec.2.2.2 c2 h3).2 (List.mem_cons_of_mem _ hs)

theorem filterNewCommits_length (seen : List Str) (cs : List Commit) :
    (filterNewCommits seen cs).1.length = (hashesOf cs \ seen.toFinset).card := by
  have h := filterNewCommits_spec seen cs
  rw [← h.1, hashesOf, List.toFinset_card_of_nodup h.2.2.1, List.length_map]

theorem card_union_sdiff_split {α : Type} [DecidableEq α] (H U S : Finset α) :
    ((H ∪ U) \ S).card = (H \ S).card + (U \ (H ∪ S)).card := by
  rw [← Finset.card_union_of_disjoint]
  · congr 1
    ext x
    simp only [Finset.mem_sdiff, Finset.mem_union]
    tauto
  · rw [Finset.disjoint_left]
    intro x hx hy
    simp only [Finset.mem_sdiff, Finset.mem_union] at hx hy
    tauto

theorem aggregateBranches_count (provider : Str → List Commit) (bs : List Str) :
    ∀ seen : List Str,
      totalCommits (aggregateBranches provider bs seen)
        = (unionHashes provider bs \ seen.toFinset).card := by
  induction bs with
  | nil =>
    intro seen
    simp [aggregateBranches, totalCommits, unionHashes]
  | cons b bs ih =>
    intro seen
    have hf := filterNewCommits_spec seen (provider b)
    have hl := filterNewCommits_length seen (provider b)
    have hsplit := card_union_sdiff_split (hashesOf (provider b)) (unionHashes provider bs)
      seen.toFinset
    have hrest := ih (filterNewCommits seen (provider b)).2
    rw [hf.2.1] at hrest
    simp only [aggregateBranches, unionHashes]
    by_cases hemp : (filterNewCommits seen (provider b)).1.isEmpty
    · rw [if_pos hemp]
      have h0 : (filterNewCommits seen (provider b)).1.length = 0 := by
        rw [List.isEmpty_iff] at hemp
        simp [hemp]
      omega
    · rw [if_neg hemp]
      have hcons : totalCommits ((b, (filterNewCommits seen (provider b)).1) ::
          aggregateBranches provider bs (filterNewCommits seen (provider b)).2)
          = (filterNewCommits seen (provider b)).1.length
            + totalCommits (aggregateBranches provider bs
                (filterNewCommits seen (provider b)).2) := by
        simp [totalCommits]
      omega

theorem aggregateBranches_attribution (provider : Str → List Commit) (bs : List Str) :
    ∀ seen b l, (b, l) ∈ aggregateBranches provider bs seen → ∀ c ∈ l,
      c.fullHash ∉ seen ∧ firstBranchWith provider bs c.fullHash = some b := by
  induction bs with
  | nil =>
    intro seen b l h
    simp [aggregateBranches] at h
  | cons b0 bs ih =>
    intro seen b l hmem c hc
    have hf := filterNewCommits_spec seen (provider b0)
    simp only [aggregateBranches] at hmem
    have hrecmem : (b, l) ∈ aggregateBranches provider bs (filterNewCommits seen
        (provider b0)).2 →
        c.fullHash ∉ seen ∧ firstBranchWith provider (b0 :: bs) c.fullHash = some b := by
      intro hm2
      have hrec := ih _ b l hm2 c hc
      have hnot : c.fullHash ∉ (filterNewCommits seen (provider b0)).2 := hrec.1
      have hfin : c.fullHash ∉ hashesOf (provider b0) ∪ seen.toFinset := by
        rw [← hf.2.1]
        rw [List.mem_toFinset]
        exact hnot
      simp only [Finset.mem_union, List.mem_toFinset, not_or] at hfin
      refine ⟨hfin.2, ?_⟩
      have hpred : ((provider b0).any (fun c2 => decide (c2.fullHash = c.fullHash)))
          = false := by
        rw [List.any_eq_false]
        intro c2 h2 heq
        apply hfin.1
        rw [hashesOf, List.mem_toFinset]
        exact List.mem_map.mpr ⟨c2, h2, of_decide_eq_true heq⟩
      unfold firstBranchWith at hrec ⊢
      simp only [List.find?_cons, hpred]
      exact hrec.2
    by_cases hemp : (filterNewCommits seen (provider b0)).1.isEmpty
    · rw [if_pos hemp] at hmem
      exact hrecmem hmem
    · rw [if_neg hemp] at hmem
      rcases List.mem_cons.mp hmem with heq | h2
      · rw [Prod.mk.injEq] at heq
        obtain ⟨hb, hl⟩ := heq
        subst hl
        have hck := hf.2.2.2 c hc
        refine ⟨hck.2, ?_⟩
        have hpred : ((provider b0).any (fun c2 => decide (c2.fullHash = c.fullHash)))
            = true :=
          List.any_eq_true.mpr ⟨c, hck.1, by simp⟩
        unfold firstBranchWith
        simp only [List.find?_cons, hpred]
        rw [hb]
      · exact hrecmem h2

theorem aggregateBranches_keys (provider : Str → List Commit) (bs : List Str) :
    ∀ seen bl, bl ∈ aggregateBranches provider bs seen → bl.1 ∈ bs ∧ bl.2 ≠ [] := by
  induction bs with
  | nil =>
    intro seen bl h
    simp [aggregateBranches] at h
  | cons b0 bs ih =>
    intro seen bl hmem
    simp only [aggregateBranches] at hmem
    by_cases hemp : (filterNewCommits seen (provider b0)).1.isEmpty
    · rw [if_pos hemp] at hmem
      have h := ih _ bl hmem
      exact ⟨List.mem_cons_of_mem _ h.1, h.2⟩
    · rw [if_neg hemp] at hmem
      rcases List.mem_cons.mp hmem with heq | h2
      · subst heq
        refine ⟨List.mem_cons_self _ _, ?_⟩
        intro hnil
        rw [List.isEmpty_iff] at hemp
        exact hemp hnil
      · have h := ih _ bl h2
        exact ⟨List.mem_cons_of_mem _ h.1, h.2⟩

theorem jsDedupAux_spec {α : Type} [DecidableEq α] (l : List α) :
    ∀ seen : List α, (jsDedupAux seen l).Nodup ∧
      ∀ a ∈ jsDedupAux seen l, a ∈ l ∧ a ∉ seen := by
  induction l with
  | nil =>
    intro seen
    simp [jsDedupAux]
  | cons a l ih =>
    intro seen
    simp only [jsDedupAux]
    split_ifs with ha
    · refine ⟨(ih seen).1, fun x hx => ⟨List.mem_cons_of_mem _ ((ih seen).2 x hx).1,
        ((ih seen).2 x hx).2⟩⟩
    · refine ⟨?_, ?_⟩
      · rw [List.nodup_cons]
        refine ⟨?_, (ih (a :: seen)).1⟩
        intro hmem
        exact ((ih (a :: seen)).2 a hmem).2 (List.mem_cons_self a seen)
      · intro x hx
        rcases List.mem_cons.mp hx with rfl | hx2
        · exact ⟨List.mem_cons_self _ _, ha⟩
        · exact ⟨List.mem_cons_of_mem _ ((ih (a :: seen)).2 x hx2).1,
            fun hs => ((ih (a :: seen)).2 x hx2).2 (List.mem_cons_of_mem a hs)⟩

theorem jsDedup_nodup {α : Type} [DecidableEq α] (l : List α) : (jsDedup l).Nodup :=
  (jsDedupAux_spec l []).1

theorem jsDedup_subset {α : Type} [DecidableEq α] (l : List α) (a : α) (h : a ∈ jsDedup l) :
    a ∈ l :=
  ((jsDedupAux_spec l []).2 a h).1

theorem isPrefixOf_append_self (p s : Str) : p.isPrefixOf (p ++ s) = true := by
  induction p with
  | nil => simp [List.isPrefixOf]
  | cons c p ih => simp [List.isPrefixOf, ih]

theorem replaceFirst_of_append (pat s : Str) (hne : pat ≠ []) :
    replaceFirst pat (pat ++ s) = s := by
  cases pat with
  | nil => exact absurd rfl hne
  | cons c p =>
    simp only [List.cons_append, replaceFirst]
    split_ifs with hcnd
    · simp only [List.length_cons, List.drop_succ_cons]
      exact List.drop_left p s
    · exact absurd (isPrefixOf_append_self (c :: p) s) hcnd

/-! ## Claims about branch enumeration and aggregation -/

/-- C1 (confirmed): for every provider and branch list, aggregation
deduplicates the branch list and attributes every commit to exactly one
branch, the first branch in iteration order whose provider result contains
its full identity, and the total number of commits across all lists of the
returned mapping equals the number of distinct full commit identities
returned across all branch queries: nothing is double-counted. -/
theorem C1_dedup_first_seen (provider : Str → List Commit) (branches : List Str) :
    totalCommits (getCommitsByBranch provider branches)
      = (unionHashes provider (jsDedup branches)).card
    ∧ ((getCommitsByBranch provider branches).all (fun bl =>
        bl.2.all (fun c =>
          decide (firstBranchWith provider (jsDedup branches) c.fullHash = some bl.1))))
        = true := by
  constructor
  · have h := aggregateBranches_count provider (jsDedup branches) []
    simpa [getCommitsByBranch] using h
  · simp only [List.all_eq_true, decide_eq_true_eq]
    intro bl hbl c hc
    exact (aggregateBranches_attribution provider (jsDedup branches) [] bl.1 bl.2 hbl c hc).2

/-- C7 (confirmed): for every provider and branch list, a branch whose
filtered commit list is empty is omitted entirely: the returned mapping
never contains a key bound to an empty list. -/
theorem C7_no_empty_entries (provider : Str → List Commit) (branches : List Str) :
    ((getCommitsByBranch provider branches).all (fun bl => !bl.2.isEmpty)) = true := by
  simp only [List.all_eq_true, Bool.not_eq_true']
  intro bl hbl
  have h := (aggregateBranches_keys provider (jsDedup branches) [] bl hbl).2
  rw [List.isEmpty_eq_false]
  exact h

/-- C8 (confirmed): if the git log call fails for one branch, that branch is
treated as having no commits: the aggregation result is identical to the
result where the failing call instead returned empty output, and the other
branches are unaffected.  The failure is absorbed inside
getCommitsForBranch and never surfaces. -/
theorem C8_failed_branch_as_empty (git git2 : Str → Option Str) (branches : List Str)
    (f : Str) (h1 : git f = none) (h2 : git2 f = some []) (h3 : ∀ b, b ≠ f → git2 b = git b) :
    getCommitsByBranch (getCommitsForBranch git) branches
      = getCommitsByBranch (getCommitsForBranch git2) branches := by
  have hp : getCommitsForBranch git = getCommitsForBranch git2 := by
    funext b
    by_cases hb : b = f
    · subst hb
      unfold getCommitsForBranch
      rw [h1, h2]
      rfl
    · unfold getCommitsForBranch
      rw [h3 b hb]
  rw [hp]

theorem C8_failed_branch_as_empty_witness :
    getCommitsByBranch
        (getCommitsForBranch (fun b => if b = ['b', 'a', 'd'] then none
          else some ("abc|||m|||a|||d".toList)))
        [['m', 'a', 'i', 'n'], ['b', 'a', 'd']]
      = getCommitsByBranch
        (getCommitsForBranch (fun b => if b = ['b', 'a', 'd'] then some []
          else some ("abc|||m|||a|||d".toList)))
        [['m', 'a', 'i', 'n'], ['b', 'a', 'd']] :=
  C8_failed_branch_as_empty _ _ [['m', 'a', 'i', 'n'], ['b', 'a', 'd']] ['b', 'a', 'd']
    (by decide) (by decide) (fun b hb => by simp [hb])

/-- C9 (amended): the branch enumeration consumed by aggregation is
deduplicated by value (no name occurs twice), yields the empty sequence on
failure, and deletes the first occurrence of the substring origin/ from
each trimmed line, so an origin remote-tracking branch collapses with the
local branch of the same short name; names of branches from remotes other
than origin keep their remote prefix (see the counterexample). -/
theorem C9_branch_enumeration :
    (∀ gitOut : Option Str, (jsDedup (getAllBranches gitOut)).Nodup)
    ∧ getAllBranches none = []
    ∧ (∀ s : Str, replaceFirst ("origin/".toList) ("origin/".toList ++ s) = s)
    ∧ jsDedup (getAllBranches (some ("main\norigin/main\nfeature".toList)))
        = ["main".toList, "feature".toList] := by
  refine ⟨fun g => jsDedup_nodup _, rfl, fun s => replaceFirst_of_append _ s (by decide),
    by decide⟩

/-- C9 counterexample: a remote-tracking branch of a remote named upstream
does not collapse with the local branch of the same short name: the line
upstream/foo keeps its remote prefix, so the enumeration contains both foo
and upstream/foo instead of the single entry foo the claim requires. -/
theorem C9_branch_enumeration_counterexample :
    jsDedup (getAllBranches (some ("foo\nupstream/foo".toList)))
      = ["foo".toList, "upstream/foo".toList]
    ∧ ["foo".toList, "upstream/foo".toList] ≠ (["foo".toList] : List Str) :=
  ⟨by decide, by decide⟩

/-- C10 (amended): branch enumeration drops every raw ref line containing the
substring stash and every line starting with tag: (and blank lines), so every
branch key of any aggregation result is a surviving line containing neither,
trimmed and with origin/ deleted; but the origin/ deletion runs after that
filter and can forge a name containing stash from a surviving line (the
surviving line staorigin/sh becomes the enumerated name stash), so commits
fetched under such a forged name — including the commits of the excluded
stash ref itself — do appear in aggregation results attributed to it. -/
theorem C10_stash_tag_excluded :
    (∀ (gitBranches : Option Str) (provider : Str → List Commit),
      ((getCommitsByBranch provider (getAllBranches gitBranches)).all (fun bl =>
        (branchLines gitBranches).any (fun line =>
          !containsSub ("stash".toList) line && !(("tag:".toList).isPrefixOf line)
            && !(trimJs line).isEmpty
            && decide (replaceFirst ("origin/".toList) (trimJs line) = bl.1)))) = true)
    ∧ getAllBranches (some ("staorigin/sh".toList)) = ["stash".toList] := by
  constructor
  · intro gitBranches provider
    simp only [List.all_eq_true]
    intro bl hbl
    have hkey : bl.1 ∈ getAllBranches gitBranches :=
      jsDedup_subset _ _ (aggregateBranches_keys provider _ [] bl hbl).1
    cases gitBranches with
    | none => simp [getAllBranches] at hkey
    | some out =>
      simp only [getAllBranches] at hkey
      rcases List.mem_map.mp hkey with ⟨line, hline, heq⟩
      rcases List.mem_filter.mp hline with ⟨hline2, hcond⟩
      rcases List.mem_filter.mp hline2 with ⟨hline3, hblank⟩
      rw [List.any_eq_true]
      refine ⟨line, ?_, ?_⟩
      · simpa [branchLines] using hline3
      · simp only [Bool.and_eq_true] at hcond ⊢
        refine ⟨⟨⟨hcond.1, hcond.2⟩, hblank⟩, ?_⟩
        rw [decide_eq_true_eq]
        exact heq
  · decide

/-- C10 counterexample: with the git branch output listing the refs stash and
staorigin/sh, the stash line is filtered out, but the surviving line
staorigin/sh, trimmed and with origin/ deleted, becomes the name stash;
aggregation then
queries the provider for stash and attributes the commits of the stash ref
to the key stash, a name containing the substring stash — so commits of a
stash-named branch do appear in an aggregation result attributed to it,
contradicting the claim. -/
theorem C10_stash_tag_excluded_counterexample :
    getAllBranches (some ("stash\nstaorigin/sh".toList)) = ["stash".toList]
    ∧ containsSub ("stash".toList) ("staorigin/sh".toList) = false
    ∧ getCommitsByBranch
        (fun b => if b = "stash".toList then
            [{ hash := ['a'], fullHash := ['a'], message := [], author := [], date := [] }]
          else [])
        (getAllBranches (some ("stash\nstaorigin/sh".toList)))
      = [("stash".toList,
          [{ hash := ['a'], fullHash := ['a'], message := [], author := [], date := [] }])]
    ∧ containsSub ("stash".toList) ("stash".toList) = true := by
  exact ⟨by decide, by decide, by decide, by decide⟩
